import Mathlib

/-!
Verification of the stt-widget repository (dictation_gui.py, dictation_server.py)
against its natural-language specification.

Conventions of the shallow embedding:
* byte streams are `List Nat` (byte values), audio samples are abstract values
  (a type parameter), float arithmetic on durations is modelled exactly with `ℚ`;
* stateful handlers become explicit state-passing functions that also emit an
  event/action trace;
* the loops of the Python source become folds or structural recursions that
  mirror the loop body line by line.
-/

namespace Dictation

/-- Target sample rate shared by client and daemon (`WHISPER_RATE = 16000`). -/
def WHISPER_RATE : Nat := 16000

/-! ### Client resampler (`audio_callback`, src/dictation_gui.py lines 37-46)

The callback does, when `capture_rate != WHISPER_RATE`:
  `ratio = WHISPER_RATE / capture_rate`
  `n_out = int(len(mono) * ratio)`
  `indices = np.minimum((np.arange(n_out) / ratio).astype(int), len(mono) - 1)`
  `mono = mono[indices]`
Modelled exactly over the rationals: `int(len(mono) * ratio)` truncates the
nonnegative product `len * target / native`, i.e. natural-number division
`len * target / native`; likewise `(i / ratio).astype(int)` is
`i * native / target`. The two rates are generalized (the source fixes
`target = WHISPER_RATE`). -/
def resample {α : Type} [Inhabited α] (samples : List α) (native target : Nat) :
    List α :=
  if native = target then samples
  else
    (List.range (samples.length * target / native)).map
      (fun i => samples.getD (min (i * native / target) (samples.length - 1)) default)

lemma resample_length_of_ne {α : Type} [Inhabited α] (samples : List α)
    {native target : Nat} (hne : native ≠ target) :
    (resample samples native target).length = samples.length * target / native := by
  simp [resample, hne]

lemma resample_getD_of_ne {α : Type} [Inhabited α] (samples : List α)
    {native target : Nat} (hne : native ≠ target) (i : Nat)
    (hi : i < samples.length * target / native) (d : α) :
    (resample samples native target).getD i d =
      samples.getD (min (i * native / target) (samples.length - 1)) default := by
  unfold resample
  rw [if_neg hne]
  rw [List.getD_eq_getElem?_getD]
  rw [List.getElem?_map]
  rw [List.getElem?_range hi]
  simp

/-- C4, counterexample. The spec claims the output length is
`round(L * target / native)`; on one input sample with native rate 3 and
target rate 2 the code produces `int(1 * 2/3) = 0` samples while
`round(2/3) = 1`. -/
theorem resample_round_length_false :
    (resample ([0] : List ℤ) 3 2).length ≠ (round ((1 * 2 : ℚ) / 3)).toNat := by
  have h1 : (resample ([0] : List ℤ) 3 2).length = 0 := by decide
  have h2 : round ((1 * 2 : ℚ) / 3) = 1 := by
    rw [round_eq]
    norm_num
  rw [h1, h2]
  decide

/-- C4 (amended): when the two rates are equal the resampler is the identity;
otherwise its output length is `⌊L * target / native⌋` (truncating division,
which is what `int(len(mono) * ratio)` computes), not the nearest integer. -/
theorem resample_length_spec {α : Type} [Inhabited α] (samples : List α)
    (native target : Nat) (hn : 0 < native) (ht : 0 < target) :
    (native = target → resample samples native target = samples) ∧
    (native ≠ target →
      (resample samples native target).length = samples.length * target / native) := by
  constructor
  · intro h; simp [resample, h]
  · intro h; exact resample_length_of_ne samples h

/-- Witness for `resample_length_spec` at concrete input. -/
theorem resample_length_spec_witness :
    (resample ([5, 6, 7] : List ℕ) 3 2).length = 3 * 2 / 3 :=
  (resample_length_spec ([5, 6, 7] : List ℕ) 3 2 (by decide) (by decide)).2
    (by decide)

/-- C8: with distinct positive rates, output sample `i` is the input sample at
index `min(⌊i * native / target⌋, L - 1)`, and in particular every output
sample is one of the input samples. -/
theorem resample_nearest_neighbor {α : Type} [Inhabited α] (samples : List α)
    (native target : Nat) (hn : 0 < native) (ht : 0 < target)
    (hne : native ≠ target) (i : Nat)
    (hi : i < (resample samples native target).length) :
    (resample samples native target).getD i default =
        samples.getD (min (i * native / target) (samples.length - 1)) default ∧
    (resample samples native target).getD i default ∈ samples := by
  rw [resample_length_of_ne samples hne] at hi
  have hL : 0 < samples.length := by
    by_contra h
    push_neg at h
    interval_cases hLen : samples.length
    simp [hLen] at hi
  have hget := resample_getD_of_ne samples hne i hi (default : α)
  refine ⟨hget, ?_⟩
  rw [hget]
  have hidx : min (i * native / target) (samples.length - 1) < samples.length :=
    lt_of_le_of_lt (min_le_right _ _) (Nat.sub_lt hL one_pos)
  rw [List.getD_eq_getElem?_getD, List.getElem?_eq_getElem hidx]
  exact List.getElem_mem _

/-- Witness for `resample_nearest_neighbor` at concrete input. -/
theorem resample_nearest_neighbor_witness :
    (resample ([5, 6, 7] : List ℕ) 3 2).getD 1 default =
        ([5, 6, 7] : List ℕ).getD (min (1 * 3 / 2) (3 - 1)) default ∧
    (resample ([5, 6, 7] : List ℕ) 3 2).getD 1 default ∈ ([5, 6, 7] : List ℕ) :=
  resample_nearest_neighbor ([5, 6, 7] : List ℕ) 3 2 (by decide) (by decide)
    (by decide) 1 (by decide)

/-! ### Control-line decoding
(`DictationWindow.read_daemon_messages`, src/dictation_gui.py lines 329-345,
and `DictationWindow.handle_daemon_line`, lines 347-357)

The reader accumulates received bytes in `buf` and, while a newline is
present, splits off the first line with `buf.split(b"\n", 1)` and handles it.
Bytes are modelled as `Char` (the `decode("utf-8", errors="replace")` step is
out of scope; line identity is what matters). -/

/-- Split a buffer at its first newline, as `buf.split(b"\n", 1)` does when
`b"\n" in buf`; `none` models the loop guard failing (no newline present). -/
def splitFirstNewline : List Char → Option (List Char × List Char)
  | [] => none
  | c :: cs =>
      if c = '\n' then some ([], cs)
      else (splitFirstNewline cs).map (fun p => (c :: p.1, p.2))

lemma splitFirstNewline_rest_length (buf : List Char) :
    ∀ l r, splitFirstNewline buf = some (l, r) → r.length < buf.length := by
  induction buf with
  | nil => intro l r h; exact absurd h (by simp [splitFirstNewline])
  | cons c cs ih =>
      intro l r h
      unfold splitFirstNewline at h
      by_cases hc : c = '\n'
      · rw [if_pos hc] at h
        injection h with h'
        rw [Prod.mk.injEq] at h'
        rw [← h'.2]
        simp
      · rw [if_neg hc, Option.map_eq_some'] at h
        obtain ⟨p, hp, hfp⟩ := h
        have hr : r = p.2 := by
          have := congrArg Prod.snd hfp
          simpa using this.symm
        rw [hr]
        exact Nat.lt_succ_of_lt (ih p.1 p.2 hp)

/-- The inner `while b"\n" in buf:` loop of `read_daemon_messages`: returns
the complete (newline-terminated) lines in order, and the remaining buffer. -/
def extractLines (buf : List Char) : List (List Char) × List Char :=
  match h : splitFirstNewline buf with
  | none => ([], buf)
  | some (line, rest) =>
      let r := extractLines rest
      (line :: r.1, r.2)
termination_by buf.length
decreasing_by
  exact splitFirstNewline_rest_length buf _ _ h

lemma extractLines_eq_none {buf : List Char} (h : splitFirstNewline buf = none) :
    extractLines buf = ([], buf) := by
  rw [extractLines.eq_def]
  split
  · rfl
  · rename_i line rest heq
    rw [h] at heq
    cases heq

lemma extractLines_eq_some {buf line rest : List Char}
    (h : splitFirstNewline buf = some (line, rest)) :
    extractLines buf = (line :: (extractLines rest).1, (extractLines rest).2) := by
  rw [extractLines.eq_def]
  split
  · rename_i heq
    rw [h] at heq
    cases heq
  · rename_i l r heq
    rw [h] at heq
    injection heq with heq'
    rw [Prod.mk.injEq] at heq'
    obtain ⟨rfl, rfl⟩ := heq'
    rfl

lemma splitFirstNewline_append_some {x : List Char} :
    ∀ {l r : List Char}, splitFirstNewline x = some (l, r) → ∀ y,
      splitFirstNewline (x ++ y) = some (l, r ++ y) := by
  induction x with
  | nil => intro l r h y; exact absurd h (by simp [splitFirstNewline])
  | cons c cs ih =>
      intro l r h y
      rw [List.cons_append]
      unfold splitFirstNewline at h ⊢
      by_cases hc : c = '\n'
      · rw [if_pos hc] at h ⊢
        injection h with h'
        rw [Prod.mk.injEq] at h'
        obtain ⟨rfl, rfl⟩ := h'
        rfl
      · rw [if_neg hc] at h ⊢
        rw [Option.map_eq_some'] at h
        obtain ⟨p, hp, hfp⟩ := h
        rw [ih hp y, Option.map_some']
        have h1 : l = c :: p.1 := by
          have := congrArg Prod.fst hfp
          simpa using this.symm
        have h2 : r = p.2 := by
          have := congrArg Prod.snd hfp
          simpa using this.symm
        simp [h1, h2]

lemma extractLines_append_aux (n : Nat) :
    ∀ (x y : List Char), x.length ≤ n →
      extractLines (x ++ y) =
        ((extractLines x).1 ++ (extractLines ((extractLines x).2 ++ y)).1,
         (extractLines ((extractLines x).2 ++ y)).2) := by
  induction n with
  | zero =>
      intro x y hx
      have : x = [] := List.length_eq_zero.mp (Nat.le_zero.mp hx)
      subst this
      simp [extractLines_eq_none (show splitFirstNewline [] = none from rfl)]
  | succ n ih =>
      intro x y hx
      cases hs : splitFirstNewline x with
      | none =>
          rw [extractLines_eq_none hs]
          simp
      | some p =>
          obtain ⟨line, rest⟩ := p
          rw [extractLines_eq_some hs,
              extractLines_eq_some (splitFirstNewline_append_some hs y)]
          have hrest : rest.length ≤ n :=
            Nat.le_of_lt_succ (Nat.lt_of_lt_of_le
              (splitFirstNewline_rest_length x line rest hs) hx)
          rw [ih rest y hrest]
          simp

lemma extractLines_append (x y : List Char) :
    extractLines (x ++ y) =
      ((extractLines x).1 ++ (extractLines ((extractLines x).2 ++ y)).1,
       (extractLines ((extractLines x).2 ++ y)).2) :=
  extractLines_append_aux x.length x y le_rfl

lemma splitFirstNewline_extractLines_rem_aux (n : Nat) :
    ∀ (buf : List Char), buf.length ≤ n →
      splitFirstNewline (extractLines buf).2 = none := by
  induction n with
  | zero =>
      intro buf hb
      have : buf = [] := List.length_eq_zero.mp (Nat.le_zero.mp hb)
      subst this
      rw [extractLines_eq_none (show splitFirstNewline [] = none from rfl)]
      rfl
  | succ n ih =>
      intro buf hb
      cases hs : splitFirstNewline buf with
      | none => rw [extractLines_eq_none hs]; exact hs
      | some p =>
          obtain ⟨line, rest⟩ := p
          rw [extractLines_eq_some hs]
          exact ih rest (Nat.le_of_lt_succ (Nat.lt_of_lt_of_le
            (splitFirstNewline_rest_length buf line rest hs) hb))

lemma splitFirstNewline_extractLines_rem (buf : List Char) :
    splitFirstNewline (extractLines buf).2 = none :=
  splitFirstNewline_extractLines_rem_aux buf.length buf le_rfl

/-- One iteration of the outer `while True:` body of `read_daemon_messages`
for a received chunk `data`: `buf += data`, then split off every complete
line. The first component accumulates lines in the order in which
`handle_daemon_line` is invoked on them. -/
def feedChunk (st : List (List Char) × List Char) (data : List Char) :
    List (List Char) × List Char :=
  (st.1 ++ (extractLines (st.2 ++ data)).1, (extractLines (st.2 ++ data)).2)

/-- The reader loop of `read_daemon_messages` over the sequence of chunks
`recv` returns before EOF, starting from the empty buffer. Result: all
decoded lines in order, and the final unterminated remainder. -/
def read_daemon_messages (chunks : List (List Char)) :
    List (List Char) × List Char :=
  chunks.foldl feedChunk ([], [])

lemma read_loop_invariant (chunks : List (List Char)) :
    ∀ (acc : List (List Char)) (buf : List Char),
      splitFirstNewline buf = none →
      chunks.foldl feedChunk (acc, buf) =
        (acc ++ (extractLines (buf ++ chunks.flatten)).1,
         (extractLines (buf ++ chunks.flatten)).2) := by
  induction chunks with
  | nil =>
      intro acc buf h
      simp [extractLines_eq_none h]
  | cons c cs ih =>
      intro acc buf h
      rw [List.foldl_cons,
          show feedChunk (acc, buf) c =
            (acc ++ (extractLines (buf ++ c)).1, (extractLines (buf ++ c)).2)
            from rfl,
          ih _ _ (splitFirstNewline_extractLines_rem _)]
      rw [List.flatten_cons, ← List.append_assoc, extractLines_append (buf ++ c)]
      simp

/-- C5: control-line decoding is chunking-invariant. Delivering a byte
stream in arbitrary chunks through the reader loop yields exactly the same
decoded lines, in the same order (and the same final remainder), as
delivering the whole stream in a single read. -/
theorem read_daemon_messages_chunking_invariant (chunks : List (List Char)) :
    read_daemon_messages chunks = read_daemon_messages [chunks.flatten] := by
  unfold read_daemon_messages
  rw [read_loop_invariant chunks [] [] rfl,
      read_loop_invariant [chunks.flatten] [] [] rfl]
  simp

/-! ### Per-line handling (`DictationWindow.handle_daemon_line`) -/

/-- Effect of `handle_daemon_line` on one decoded line: the new value of
`self.final_text` together with the optional progress duration posted to the
UI label (for `L` lines with a parseable payload). `parseFloat` abstracts
Python's `float(...)`, `none` modelling a `ValueError`; the theorems below
hold for an arbitrary parse function. -/
def handle_daemon_line (parseFloat : List Char → Option ℚ)
    (finalText : List Char) (line : List Char) : List Char × Option ℚ :=
  if line.take 2 = ['F', ' '] then (line.drop 2, none)
  else if line.take 2 = ['L', ' '] then
    match parseFloat (line.drop 2) with
    | some d => (finalText, some d)
    | none => (finalText, none)
  else (finalText, none)

/-- Folding `handle_daemon_line` over the decoded lines, tracking
`self.final_text` (initially the empty string). -/
def foldFinalText (parseFloat : List Char → Option ℚ)
    (t0 : List Char) (lines : List (List Char)) : List Char :=
  lines.foldl (fun t line => (handle_daemon_line parseFloat t line).1) t0

/-- The payload of the last line beginning with `F␣`, or `t0` if there is
none: the value C10 says `final_text` must end up holding. -/
def lastFinalPayload (lines : List (List Char)) (t0 : List Char) : List Char :=
  match (lines.filter (fun l => l.take 2 = ['F', ' '])).getLast? with
  | some l => l.drop 2
  | none => t0

lemma foldFinalText_eq (parseFloat : List Char → Option ℚ)
    (lines : List (List Char)) :
    ∀ t0, foldFinalText parseFloat t0 lines = lastFinalPayload lines t0 := by
  induction lines with
  | nil => intro t0; rfl
  | cons l ls ih =>
      intro t0
      unfold foldFinalText at ih ⊢
      rw [List.foldl_cons, ih]
      unfold lastFinalPayload
      by_cases hF : l.take 2 = ['F', ' ']
      · rw [List.filter_cons_of_pos (by simp [hF])]
        rw [List.getLast?_cons]
        cases hls : (ls.filter (fun l => l.take 2 = ['F', ' '])).getLast? with
        | some l2 => simp [handle_daemon_line, hF, hls]
        | none => simp [handle_daemon_line, hF, hls]
      · rw [List.filter_cons_of_neg (by simp [hF])]
        have hstep : (handle_daemon_line parseFloat t0 l).1 = t0 := by
          unfold handle_daemon_line
          rw [if_neg hF]
          by_cases hL : l.take 2 = ['L', ' ']
          · rw [if_pos hL]
            cases parseFloat (l.drop 2) <;> rfl
          · rw [if_neg hL]
        rw [hstep]

/-- C10: after handling any sequence of decoded lines, the stored result
text equals the payload of the last `F␣` line (the empty string when no such
line arrived) — later `F` payloads overwrite earlier ones — and a line
beginning with `L␣` never changes the stored text, whether or not its
payload parses as a float. -/
theorem final_text_is_last_F_payload (parseFloat : List Char → Option ℚ)
    (lines : List (List Char)) :
    foldFinalText parseFloat [] lines = lastFinalPayload lines [] ∧
    (∀ t line, line.take 2 = ['L', ' '] →
      (handle_daemon_line parseFloat t line).1 = t) := by
  refine ⟨foldFinalText_eq parseFloat lines [], ?_⟩
  intro t line hL
  unfold handle_daemon_line
  have hF : ¬ line.take 2 = ['F', ' '] := by
    rw [hL]; decide
  rw [if_neg hF, if_pos hL]
  cases parseFloat (line.drop 2) <;> rfl

/-- Witness for `final_text_is_last_F_payload` at concrete input: lines
`L 1.0`, `F hi`, `L x`, `F yo` leave `final_text = "yo"`, and an `L` line
leaves the text unchanged. -/
theorem final_text_is_last_F_payload_witness :
    foldFinalText (fun _ => none) []
        [['L', ' ', '1'], ['F', ' ', 'h', 'i'], ['L', ' ', 'x'],
         ['F', ' ', 'y', 'o']] =
      lastFinalPayload
        [['L', ' ', '1'], ['F', ' ', 'h', 'i'], ['L', ' ', 'x'],
         ['F', ' ', 'y', 'o']] [] ∧
    (∀ t line, line.take 2 = ['L', ' '] →
      (handle_daemon_line (fun _ => none) t line).1 = t) :=
  final_text_is_last_F_payload (fun _ => none)
    [['L', ' ', '1'], ['F', ' ', 'h', 'i'], ['L', ' ', 'x'],
     ['F', ' ', 'y', 'o']]

/-! ### Daemon connection handler (`handle_connection`, `log_timing`,
src/dictation_server.py lines 28-35 and 54-99)

Bytes are `Nat`; a float32 sample is a group of 4 consecutive bytes, so the
waveform `np.frombuffer(b, dtype=np.float32)` is identified with the byte
list `b` of length divisible by 4 and `len(audio_buf)` (in samples) is
`audio.length / 4`. -/

/-- State of the receive loop: `audio` holds the raw bytes of the complete
samples accumulated in `audio_buf`, `buf` holds `byte_buf` (the trailing
bytes of an incomplete sample). -/
structure RecvState where
  audio : List Nat
  buf : List Nat
deriving Repr, DecidableEq

/-- Body of the `while True:` receive loop for one `recv` result `data`:
`byte_buf += data`; `n_complete = (len(byte_buf) // 4) * 4` bytes are parsed
and appended to `audio_buf`, the rest stays in `byte_buf`. -/
def recvStep (s : RecvState) (data : List Nat) : RecvState :=
  let b := s.buf ++ data
  let nComplete := b.length / 4 * 4
  { audio := s.audio ++ b.take nComplete, buf := b.drop nComplete }

/-- The whole receive loop over the nonempty chunks `recv` returns before
EOF, from the initial empty buffers. -/
def recvAll (chunks : List (List Nat)) : RecvState :=
  chunks.foldl recvStep ⟨[], []⟩

lemma recvStep_flat (s : RecvState) (data : List Nat) :
    (recvStep s data).audio ++ (recvStep s data).buf = s.audio ++ s.buf ++ data := by
  simp [recvStep]

lemma recvStep_audio_mod (s : RecvState) (data : List Nat)
    (h : s.audio.length % 4 = 0) : (recvStep s data).audio.length % 4 = 0 := by
  simp only [recvStep, List.length_append, List.length_take]
  omega

lemma recvStep_buf_lt (s : RecvState) (data : List Nat) :
    (recvStep s data).buf.length < 4 := by
  have := Nat.div_add_mod (s.buf ++ data).length 4
  have hm : (s.buf ++ data).length % 4 < 4 := Nat.mod_lt _ (by omega)
  simp only [recvStep, List.length_drop]
  omega

lemma recvAll_aux (chunks : List (List Nat)) :
    ∀ s : RecvState,
      (chunks.foldl recvStep s).audio ++ (chunks.foldl recvStep s).buf =
        s.audio ++ s.buf ++ chunks.flatten ∧
      (s.audio.length % 4 = 0 → (chunks.foldl recvStep s).audio.length % 4 = 0) ∧
      (s.buf.length < 4 → (chunks.foldl recvStep s).buf.length < 4) := by
  induction chunks with
  | nil => intro s; simp
  | cons c cs ih =>
      intro s
      rw [List.foldl_cons]
      obtain ⟨h1, h2, h3⟩ := ih (recvStep s c)
      refine ⟨?_, fun hm => h2 (recvStep_audio_mod s c hm),
        fun _ => h3 (recvStep_buf_lt s c)⟩
      rw [h1, recvStep_flat]
      simp [List.append_assoc]

/-- After the receive loop, `audio_buf` holds exactly the complete-sample
portion of the concatenated byte stream and `byte_buf` the trailing
`total mod 4` bytes — independently of the chunking. -/
lemma recvAll_spec (chunks : List (List Nat)) :
    (recvAll chunks).audio =
      chunks.flatten.take (chunks.flatten.length / 4 * 4) ∧
    (recvAll chunks).buf =
      chunks.flatten.drop (chunks.flatten.length / 4 * 4) := by
  obtain ⟨h1, h2, h3⟩ := recvAll_aux chunks ⟨[], []⟩
  simp only [List.nil_append] at h1
  have hm : (recvAll chunks).audio.length % 4 = 0 := h2 (by simp)
  have hb : (recvAll chunks).buf.length < 4 := h3 (by simp)
  have h1' : (recvAll chunks).audio ++ (recvAll chunks).buf = chunks.flatten := h1
  have hlen : (recvAll chunks).audio.length + (recvAll chunks).buf.length =
      chunks.flatten.length := by
    rw [← h1']; simp
  have hAlen : (recvAll chunks).audio.length = chunks.flatten.length / 4 * 4 := by
    omega
  constructor
  · rw [← hAlen, ← h1', List.take_left]
  · rw [← hAlen, ← h1', List.drop_left]

/-- Observable events of one daemon connection, in order. -/
inductive DEvent where
  | recv (data : List Nat)
  | eof
  | sendL (seconds : ℚ)
  | engine (wave : List Nat)
  | sendF (text : List Char)
deriving Repr, DecidableEq

/-- Timing-log lines (`timing.csv`): the header `audio_s,transcribe_s`, or
one row holding the two durations; a duration printed by `f"{x:.2f}"` is
modelled by its value in hundredths, rounded to the nearest integer with
ties to even (exact-rational model of the decimal formatting). -/
inductive LogLine where
  | header
  | row (audioCenti transcribeCenti : ℤ)
deriving Repr, DecidableEq

/-- Round to the nearest integer, ties to even. -/
def roundHalfEven (q : ℚ) : ℤ :=
  if Int.fract q < 1/2 then ⌊q⌋
  else if 1/2 < Int.fract q then ⌊q⌋ + 1
  else if ⌊q⌋ % 2 = 0 then ⌊q⌋ else ⌊q⌋ + 1

/-- `log_timing` (src/dictation_server.py lines 28-35): append one row to
the timing log, writing the header first when the file does not exist
(`none` models an absent file). -/
def log_timing (file : Option (List LogLine))
    (audio_duration transcribe_duration : ℚ) : Option (List LogLine) :=
  let r := LogLine.row (roundHalfEven (100 * audio_duration))
                       (roundHalfEven (100 * transcribe_duration))
  match file with
  | none => some [LogLine.header, r]
  | some lines => some (lines ++ [r])

/-- `handle_connection` (src/dictation_server.py lines 54-99). Inputs: the
engine (`model.transcribe` plus the segment join, abstracted as a function
from the waveform to the joined text), the wall-clock transcription
duration, the timing-log file state, and the sequence of nonempty chunks
`recv` returns before EOF. Output: the ordered event trace of the
connection and the resulting log file state. -/
def handle_connection (engine : List Nat → List Char)
    (transcribe_duration : ℚ) (file : Option (List LogLine))
    (chunks : List (List Nat)) : List DEvent × Option (List LogLine) :=
  let s := recvAll chunks
  let readEvents := chunks.map DEvent.recv ++ [DEvent.eof]
  if s.audio.length = 0 then (readEvents, file)
  else
    let audio_duration : ℚ := (s.audio.length / 4 : ℕ) / (WHISPER_RATE : ℚ)
    let text := engine s.audio
    (readEvents ++ ([DEvent.sendL audio_duration, DEvent.engine s.audio] ++
       (if text ≠ [] then [DEvent.sendF text] else [])),
     log_timing file audio_duration transcribe_duration)

lemma handle_connection_zero (engine : List Nat → List Char)
    (transcribe_duration : ℚ) (file : Option (List LogLine))
    (chunks : List (List Nat)) (hz : (recvAll chunks).audio.length = 0) :
    handle_connection engine transcribe_duration file chunks =
      (chunks.map DEvent.recv ++ [DEvent.eof], file) := by
  unfold handle_connection
  rw [if_pos hz]

lemma handle_connection_pos (engine : List Nat → List Char)
    (transcribe_duration : ℚ) (file : Option (List LogLine))
    (chunks : List (List Nat)) (hz : ¬ (recvAll chunks).audio.length = 0) :
    handle_connection engine transcribe_duration file chunks =
      ((chunks.map DEvent.recv ++ [DEvent.eof]) ++
        ([DEvent.sendL (((recvAll chunks).audio.length / 4 : ℕ) / (WHISPER_RATE : ℚ)),
          DEvent.engine (recvAll chunks).audio] ++
         (if engine (recvAll chunks).audio ≠ [] then
            [DEvent.sendF (engine (recvAll chunks).audio)] else [])),
       log_timing file (((recvAll chunks).audio.length / 4 : ℕ) / (WHISPER_RATE : ℚ))
         transcribe_duration) := by
  unfold handle_connection
  rw [if_neg hz]

lemma engine_not_mem_readEvents (chunks : List (List Nat)) (w : List Nat) :
    DEvent.engine w ∉ chunks.map DEvent.recv ++ [DEvent.eof] := by
  intro h
  rcases List.mem_append.mp h with h' | h'
  · obtain ⟨c, _, hc⟩ := List.mem_map.mp h'
    cases hc
  · cases List.mem_singleton.mp h'

lemma sendL_not_mem_readEvents (chunks : List (List Nat)) (q : ℚ) :
    DEvent.sendL q ∉ chunks.map DEvent.recv ++ [DEvent.eof] := by
  intro h
  rcases List.mem_append.mp h with h' | h'
  · obtain ⟨c, _, hc⟩ := List.mem_map.mp h'
    cases hc
  · cases List.mem_singleton.mp h'

lemma sendF_not_mem_readEvents (chunks : List (List Nat)) (t : List Char) :
    DEvent.sendF t ∉ chunks.map DEvent.recv ++ [DEvent.eof] := by
  intro h
  rcases List.mem_append.mp h with h' | h'
  · obtain ⟨c, _, hc⟩ := List.mem_map.mp h'
    cases hc
  · cases List.mem_singleton.mp h'

lemma recvAll_audio_length (chunks : List (List Nat)) :
    (recvAll chunks).audio.length = chunks.flatten.length / 4 * 4 := by
  rw [(recvAll_spec chunks).1]
  simp only [List.length_take]
  omega

/-- C1: for every connection, every trace segment that already contains an
engine invocation also contains the EOF observation (the engine is never
invoked before end-of-input is observed on the read direction); and when
fewer than one complete sample arrived by EOF, the engine is never invoked
and neither an `L` nor an `F` message is sent. -/
theorem daemon_engine_only_after_eof (engine : List Nat → List Char)
    (transcribe_duration : ℚ) (file : Option (List LogLine))
    (chunks : List (List Nat)) (hne : ∀ c ∈ chunks, c ≠ ([] : List Nat)) :
    (∀ n, (∃ w, DEvent.engine w ∈
        ((handle_connection engine transcribe_duration file chunks).1.take n)) →
      DEvent.eof ∈
        ((handle_connection engine transcribe_duration file chunks).1.take n)) ∧
    (chunks.flatten.length < 4 →
      (∀ w, DEvent.engine w ∉
          (handle_connection engine transcribe_duration file chunks).1) ∧
      (∀ q, DEvent.sendL q ∉
          (handle_connection engine transcribe_duration file chunks).1) ∧
      (∀ t, DEvent.sendF t ∉
          (handle_connection engine transcribe_duration file chunks).1)) := by
  constructor
  · intro n ⟨w, hw⟩
    by_cases hz : (recvAll chunks).audio.length = 0
    · rw [handle_connection_zero engine transcribe_duration file chunks hz] at hw ⊢
      exact absurd (List.mem_of_mem_take hw) (engine_not_mem_readEvents chunks w)
    · rw [handle_connection_pos engine transcribe_duration file chunks hz] at hw ⊢
      rw [List.take_append_eq_append_take] at hw ⊢
      rcases List.mem_append.mp hw with h' | h'
      · exact absurd (List.mem_of_mem_take h') (engine_not_mem_readEvents chunks w)
      · have hpos : 0 < n - (chunks.map DEvent.recv ++ [DEvent.eof]).length := by
          by_contra hc
          push_neg at hc
          rw [Nat.le_zero.mp hc, List.take_zero] at h'
          cases h'
        apply List.mem_append.mpr
        left
        rw [List.take_of_length_le (by omega)]
        simp
  · intro hlt
    have hz : (recvAll chunks).audio.length = 0 := by
      rw [recvAll_audio_length]
      have : chunks.flatten.length / 4 = 0 := Nat.div_eq_of_lt hlt
      omega
    refine ⟨fun w => ?_, fun q => ?_, fun t => ?_⟩ <;>
      rw [handle_connection_zero engine transcribe_duration file chunks hz]
    · exact engine_not_mem_readEvents chunks w
    · exact sendL_not_mem_readEvents chunks q
    · exact sendF_not_mem_readEvents chunks t

/-- Witness for `daemon_engine_only_after_eof`: one four-byte chunk. -/
theorem daemon_engine_only_after_eof_witness :
    (∀ n, (∃ w, DEvent.engine w ∈
        ((handle_connection (fun _ => ['h', 'i']) 1 none [[1, 2, 3, 4]]).1.take n)) →
      DEvent.eof ∈
        ((handle_connection (fun _ => ['h', 'i']) 1 none [[1, 2, 3, 4]]).1.take n)) ∧
    (([[1, 2, 3, 4]] : List (List Nat)).flatten.length < 4 →
      (∀ w, DEvent.engine w ∉
          (handle_connection (fun _ => ['h', 'i']) 1 none [[1, 2, 3, 4]]).1) ∧
      (∀ q, DEvent.sendL q ∉
          (handle_connection (fun _ => ['h', 'i']) 1 none [[1, 2, 3, 4]]).1) ∧
      (∀ t, DEvent.sendF t ∉
          (handle_connection (fun _ => ['h', 'i']) 1 none [[1, 2, 3, 4]]).1)) :=
  daemon_engine_only_after_eof (fun _ => ['h', 'i']) 1 none [[1, 2, 3, 4]]
    (by decide)

/-- C9: whatever waveform reaches the engine is exactly the first
`⌊total/4⌋` complete samples (the first `4 * (total / 4)` bytes) of the
concatenated stream — the statement depends only on the concatenation, not
on the chunk boundaries — and when at least one complete sample arrived the
engine is invoked on exactly that waveform; the `total mod 4` trailing
bytes are dropped. -/
theorem daemon_wave_complete_samples (engine : List Nat → List Char)
    (transcribe_duration : ℚ) (file : Option (List LogLine))
    (chunks : List (List Nat)) (hne : ∀ c ∈ chunks, c ≠ ([] : List Nat)) :
    (∀ w, DEvent.engine w ∈
        (handle_connection engine transcribe_duration file chunks).1 →
      w = chunks.flatten.take (chunks.flatten.length / 4 * 4)) ∧
    (4 ≤ chunks.flatten.length →
      DEvent.engine (chunks.flatten.take (chunks.flatten.length / 4 * 4)) ∈
        (handle_connection engine transcribe_duration file chunks).1) := by
  obtain ⟨ha, _⟩ := recvAll_spec chunks
  constructor
  · intro w hw
    by_cases hz : (recvAll chunks).audio.length = 0
    · rw [handle_connection_zero engine transcribe_duration file chunks hz] at hw
      exact absurd hw (engine_not_mem_readEvents chunks w)
    · rw [handle_connection_pos engine transcribe_duration file chunks hz] at hw
      rcases List.mem_append.mp hw with h' | h'
      · exact absurd h' (engine_not_mem_readEvents chunks w)
      · rcases List.mem_cons.mp h' with h3 | h3
        · cases h3
        · rcases List.mem_cons.mp h3 with h4 | h4
          · injection h4 with h5
            rw [h5, ha]
          · exfalso
            revert h4
            split
            · intro h4
              cases List.mem_singleton.mp h4
            · intro h4
              cases h4
  · intro h4
    have hz : ¬ (recvAll chunks).audio.length = 0 := by
      rw [recvAll_audio_length]
      have h1 : 1 ≤ chunks.flatten.length / 4 := by
        rw [Nat.le_div_iff_mul_le (by omega)]
        omega
      omega
    rw [handle_connection_pos engine transcribe_duration file chunks hz]
    apply List.mem_append.mpr
    right
    apply List.mem_cons.mpr
    right
    apply List.mem_cons.mpr
    left
    rw [ha]

/-- Witness for `daemon_wave_complete_samples`: six bytes in two chunks;
the wave is the first four bytes. -/
theorem daemon_wave_complete_samples_witness :
    (∀ w, DEvent.engine w ∈
        (handle_connection (fun _ => ['h', 'i']) 1 none [[1, 2, 3], [4, 5, 6]]).1 →
      w = ([[1, 2, 3], [4, 5, 6]] : List (List Nat)).flatten.take
            (([[1, 2, 3], [4, 5, 6]] : List (List Nat)).flatten.length / 4 * 4)) ∧
    (4 ≤ ([[1, 2, 3], [4, 5, 6]] : List (List Nat)).flatten.length →
      DEvent.engine (([[1, 2, 3], [4, 5, 6]] : List (List Nat)).flatten.take
            (([[1, 2, 3], [4, 5, 6]] : List (List Nat)).flatten.length / 4 * 4)) ∈
        (handle_connection (fun _ => ['h', 'i']) 1 none [[1, 2, 3], [4, 5, 6]]).1) :=
  daemon_wave_complete_samples (fun _ => ['h', 'i']) 1 none [[1, 2, 3], [4, 5, 6]]
    (by decide)

/-- C6, counterexample: the connection that delivers zero bytes before EOF
is handled (`handle_connection` runs and returns at the zero-sample check),
yet the timing log is left exactly as it was — no row is appended — so it
is false that every handled connection appends a row. -/
theorem log_row_not_for_every_connection :
    (handle_connection (fun _ => ['h', 'i']) 1 (some [LogLine.header]) []).2 =
      some [LogLine.header] := by
  decide

/-- C6 (amended): every handled connection that delivered at least one
complete sample appends exactly one row — the audio duration and the
transcription duration, each to two decimal places — writing the header
row first when the file does not yet exist; a connection with zero complete
samples leaves the log untouched. -/
theorem log_one_row_per_transcribed_connection (engine : List Nat → List Char)
    (transcribe_duration : ℚ) (file : Option (List LogLine))
    (chunks : List (List Nat)) (hne : ∀ c ∈ chunks, c ≠ ([] : List Nat)) :
    (4 ≤ chunks.flatten.length →
      (handle_connection engine transcribe_duration file chunks).2 =
        some (file.getD [LogLine.header] ++
          [LogLine.row
            (roundHalfEven (100 * ((chunks.flatten.length / 4 : ℕ) / (WHISPER_RATE : ℚ))))
            (roundHalfEven (100 * transcribe_duration))])) ∧
    (chunks.flatten.length < 4 →
      (handle_connection engine transcribe_duration file chunks).2 = file) := by
  have haudio := recvAll_audio_length chunks
  constructor
  · intro h4
    have hz : ¬ (recvAll chunks).audio.length = 0 := by
      have h1 : 1 ≤ chunks.flatten.length / 4 := by
        rw [Nat.le_div_iff_mul_le (by omega)]
        omega
      omega
    rw [handle_connection_pos engine transcribe_duration file chunks hz]
    have hsamples : (recvAll chunks).audio.length / 4 = chunks.flatten.length / 4 := by
      omega
    rw [hsamples]
    unfold log_timing
    cases file <;> rfl
  · intro hlt
    have hz : (recvAll chunks).audio.length = 0 := by
      have : chunks.flatten.length / 4 = 0 := Nat.div_eq_of_lt hlt
      omega
    rw [handle_connection_zero engine transcribe_duration file chunks hz]

/-- Witness for `log_one_row_per_transcribed_connection`: one four-byte
chunk appended to an absent log file creates header plus one row. -/
theorem log_one_row_witness :
    (4 ≤ ([[1, 2, 3, 4]] : List (List Nat)).flatten.length →
      (handle_connection (fun _ => ['h', 'i']) 1 none [[1, 2, 3, 4]]).2 =
        some ((none : Option (List LogLine)).getD [LogLine.header] ++
          [LogLine.row
            (roundHalfEven (100 * ((([[1, 2, 3, 4]] : List (List Nat)).flatten.length / 4 : ℕ) / (WHISPER_RATE : ℚ))))
            (roundHalfEven (100 * (1 : ℚ)))])) ∧
    (([[1, 2, 3, 4]] : List (List Nat)).flatten.length < 4 →
      (handle_connection (fun _ => ['h', 'i']) 1 none [[1, 2, 3, 4]]).2 = none) :=
  log_one_row_per_transcribed_connection (fun _ => ['h', 'i']) 1 none
    [[1, 2, 3, 4]] (by decide)

/-! ### Client session lifecycle (`DictationWindow`, src/dictation_gui.py)

The attributes of `DictationWindow` that the terminal paths read or write
become a state record; every external side effect (subprocess call, GTK
call, clipboard, paste, socket, stream) becomes an `Action` in an ordered
trace. String-valued names and messages are Lean `String`s; the result text
is a `List Char` as in the protocol section. -/

structure SessionState where
  recording : Bool
  cancelled : Bool
  timerId : Option Nat
  stream : Option Nat
  stopEventSet : Bool
  sock : Option Nat
  finalText : List Char
  btCard : Option String
  btOriginalProfile : Option String
  wpAutoswitchDisabled : Bool
  prevWindow : Option Nat
deriving Repr, DecidableEq

/-- The state built in `DictationWindow.__init__` (lines 229-239). -/
def initState (prevWindow : Option Nat) : SessionState :=
  { recording := false, cancelled := false, timerId := none, stream := none,
    stopEventSet := false, sock := none, finalText := [],
    btCard := none, btOriginalProfile := none,
    wpAutoswitchDisabled := false, prevWindow := prevWindow }

/-- External effects, in the order the code performs them. -/
inductive Action where
  | setCardProfile (card profile : String)
  | setAutoswitch (enabled : Bool)
  | sleepHalfSecond
  | streamStart
  | streamClose
  | sockConnect
  | sockClose
  | readerThreadStart
  | startRecording
  | writerLoop
  | setLabel (msg : String)
  | scheduleQuitAfterError
  | clipboardCopy (text : List Char)
  | mainQuit
  | pasteToWindow (window : Nat) (text : List Char)
deriving Repr, DecidableEq

/-- `DictationWindow._restore_bt_profile` (lines 420-426): restore the
original Bluetooth card profile if one was recorded, and re-enable the
WirePlumber autoswitch if it was disabled. `set_bt_profile` (lines 151-161)
returns without an external call when card or profile is missing, so the
emitted actions are exactly the external calls made. -/
def restore_bt_profile (s : SessionState) : SessionState × List Action :=
  let a1 : List Action :=
    match s.btCard, s.btOriginalProfile with
    | some card, some profile => [Action.setCardProfile card profile]
    | _, _ => []
  if s.wpAutoswitchDisabled then
    ({ s with wpAutoswitchDisabled := false }, a1 ++ [Action.setAutoswitch true])
  else (s, a1)

/-- `DictationWindow.cancel` (lines 401-418): set the cancelled flag, stop
the timer, signal the writer, close stream and socket, restore the
Bluetooth profile, quit. -/
def cancel (s : SessionState) : SessionState × List Action :=
  let s1 := { s with cancelled := true, recording := false, timerId := none,
                     stopEventSet := true, stream := none }
  ((restore_bt_profile s1).1,
    (if s.stream.isSome then [Action.streamClose] else []) ++
    (if s.sock.isSome then [Action.sockClose] else []) ++
    (restore_bt_profile s1).2 ++ [Action.mainQuit])

/-- `DictationWindow.finish` (lines 428-451): return immediately when
cancelled; otherwise close stream and socket, restore the Bluetooth
profile, copy nonempty text to the clipboard, quit, and paste into the
previously focused window when there is one. -/
def finish (s : SessionState) (text : List Char) : SessionState × List Action :=
  if s.cancelled then (s, [])
  else
    let s1 := { s with stream := none }
    ((restore_bt_profile s1).1,
      (if s.stream.isSome then [Action.streamClose] else []) ++
      (if s.sock.isSome then [Action.sockClose] else []) ++
      (restore_bt_profile s1).2 ++
      (if text ≠ [] then [Action.clipboardCopy text] else []) ++
      [Action.mainQuit] ++
      (match s.prevWindow with
       | some w => if text ≠ [] then [Action.pasteToWindow w text] else []
       | none => []))

/-- `DictationWindow.show_error` (lines 359-362): set the label text and
schedule an automatic quit after three seconds — nothing else; in
particular it never calls `_restore_bt_profile`. -/
def show_error (s : SessionState) (message : String) :
    SessionState × List Action :=
  (s, [Action.setLabel message, Action.scheduleQuitAfterError])

/-- Environment of one `worker_init` run: what the external world answers. -/
structure Env where
  btCard : Option String
  btActiveProfile : Option String
  btDesc : Option String
  hfpProfile : Option String
  deviceFound : Bool
  streamOpens : Bool
  socketExists : Bool
deriving Repr, DecidableEq

/-- The Bluetooth block at the top of `worker_init` (lines 250-260): record
card and active profile; if a card is present and an HFP profile is found,
disable the autoswitch agent, and if an original profile was recorded and
differs from the HFP one, switch to it and sleep half a second. -/
def bt_negotiate (env : Env) (s : SessionState) : SessionState × List Action :=
  let s1 := { s with btCard := env.btCard,
                     btOriginalProfile := env.btActiveProfile }
  match env.btCard with
  | none => (s1, [])
  | some card =>
      match env.hfpProfile with
      | none => (s1, [])
      | some hfp =>
          let s2 := { s1 with wpAutoswitchDisabled := true }
          match env.btActiveProfile with
          | some orig =>
              if hfp ≠ orig then
                (s2, [Action.setAutoswitch false, Action.setCardProfile card hfp,
                      Action.sleepHalfSecond])
              else (s2, [Action.setAutoswitch false])
          | none => (s2, [Action.setAutoswitch false])

/-- `DictationWindow.worker_init` (lines 244-301): Bluetooth negotiation,
then `find_input_device` (error: show the message and return), then open
and start the input stream (error: show the message and return), then
connect to the daemon socket (absent: show "Daemon not running" and
return — note the stream has already been started at this point), then
start the reader thread, schedule `start_recording`, and run the writer
loop. -/
def worker_init (env : Env) (s0 : SessionState) : SessionState × List Action :=
  let p := bt_negotiate env s0
  if ¬ env.deviceFound then
    ((show_error p.1 "No input devices found. Is a microphone connected?").1,
     p.2 ++ (show_error p.1 "No input devices found. Is a microphone connected?").2)
  else if ¬ env.streamOpens then
    ((show_error p.1 "Audio error").1,
     p.2 ++ (show_error p.1 "Audio error").2)
  else
    let s3 := { p.1 with stream := some 0 }
    if ¬ env.socketExists then
      ((show_error { s3 with sock := some 0 } "Daemon not running").1,
       p.2 ++ [Action.streamStart] ++
         (show_error { s3 with sock := some 0 } "Daemon not running").2)
    else
      ({ s3 with sock := some 0 },
       p.2 ++ [Action.streamStart, Action.sockConnect, Action.readerThreadStart,
               Action.startRecording, Action.writerLoop])

lemma restore_bt_profile_actions (s : SessionState) :
    ∀ a ∈ (restore_bt_profile s).2,
      (∃ c p, a = Action.setCardProfile c p) ∨ a = Action.setAutoswitch true := by
  intro a ha
  unfold restore_bt_profile at ha
  by_cases hw : s.wpAutoswitchDisabled
  · rw [if_pos hw] at ha
    rcases List.mem_append.mp ha with h' | h'
    · rcases hc : s.btCard with _ | card <;>
        rcases hp : s.btOriginalProfile with _ | profile <;>
        simp only [hc, hp] at h'
      · exact absurd h' (List.not_mem_nil a)
      · exact absurd h' (List.not_mem_nil a)
      · exact absurd h' (List.not_mem_nil a)
      · exact Or.inl ⟨card, profile, List.mem_singleton.mp h'⟩
    · exact Or.inr (List.mem_singleton.mp h')
  · rw [if_neg hw] at ha
    rcases hc : s.btCard with _ | card <;>
      rcases hp : s.btOriginalProfile with _ | profile <;>
      simp only [hc, hp] at ha
    · exact absurd ha (List.not_mem_nil a)
    · exact absurd ha (List.not_mem_nil a)
    · exact absurd ha (List.not_mem_nil a)
    · exact Or.inl ⟨card, profile, List.mem_singleton.mp ha⟩

lemma restore_bt_profile_cancelled (s : SessionState) :
    (restore_bt_profile s).1.cancelled = s.cancelled := by
  unfold restore_bt_profile
  by_cases hw : s.wpAutoswitchDisabled <;> simp [hw]

lemma cancel_actions (s : SessionState) (a : Action)
    (hcp : ∀ c p, a ≠ Action.setCardProfile c p)
    (hsw : ∀ b, a ≠ Action.setAutoswitch b)
    (hstr : a ≠ Action.streamClose) (hsk : a ≠ Action.sockClose)
    (hq : a ≠ Action.mainQuit) : a ∉ (cancel s).2 := by
  intro hmem
  simp only [cancel] at hmem
  rcases List.mem_append.mp hmem with h' | h'
  · rcases List.mem_append.mp h' with h'' | h''
    · rcases List.mem_append.mp h'' with h3 | h3
      · revert h3
        split <;> intro h3
        · exact hstr (List.mem_singleton.mp h3)
        · exact absurd h3 (List.not_mem_nil a)
      · revert h3
        split <;> intro h3
        · exact hsk (List.mem_singleton.mp h3)
        · exact absurd h3 (List.not_mem_nil a)
    · rcases restore_bt_profile_actions _ _ h'' with ⟨c, p, hcp'⟩ | hsw'
      · exact hcp c p hcp'
      · exact hsw true hsw'
  · exact hq (List.mem_singleton.mp h')

/-- C2: cancellation wins every race with a `Result`. With the cancelled
flag set, `finish` performs no action at all and leaves the state unchanged
— in particular no clipboard copy and no paste, whatever final text was
stored or arrives later; `cancel` itself never copies or pastes; and
`finish` run after `cancel` is inert. -/
theorem cancellation_wins (s : SessionState) (text : List Char)
    (h : s.cancelled = true) :
    (finish s text).2 = [] ∧ (finish s text).1 = s ∧
    (∀ t, Action.clipboardCopy t ∉ (cancel s).2) ∧
    (∀ w t, Action.pasteToWindow w t ∉ (cancel s).2) ∧
    ((cancel s).1.cancelled = true) ∧
    (finish (cancel s).1 text).2 = [] := by
  have hcanc : (cancel s).1.cancelled = true := by
    simp only [cancel]
    rw [restore_bt_profile_cancelled]
  refine ⟨?_, ?_, ?_, ?_, hcanc, ?_⟩
  · unfold finish; rw [if_pos h]
  · unfold finish; rw [if_pos h]
  · intro t
    exact cancel_actions s _ (by intro c p hx; cases hx) (by intro b hx; cases hx)
      (by intro hx; cases hx) (by intro hx; cases hx) (by intro hx; cases hx)
  · intro w t
    exact cancel_actions s _ (by intro c p hx; cases hx) (by intro b hx; cases hx)
      (by intro hx; cases hx) (by intro hx; cases hx) (by intro hx; cases hx)
  · unfold finish
    rw [if_pos hcanc]

/-- A concrete mid-session state with the cancelled flag set, a stored
result text, an open stream and socket, and a negotiated Bluetooth card. -/
def cancelledSample : SessionState :=
  { recording := false, cancelled := true, timerId := none, stream := some 0,
    stopEventSet := true, sock := some 0, finalText := ['h', 'i'],
    btCard := some "bluez_card.x", btOriginalProfile := some "a2dp-sink",
    wpAutoswitchDisabled := true, prevWindow := some 7 }

/-- Witness for `cancellation_wins` at `cancelledSample`. -/
theorem cancellation_wins_witness :
    (finish cancelledSample ['h', 'i']).2 = [] ∧
    (finish cancelledSample ['h', 'i']).1 = cancelledSample ∧
    (∀ t, Action.clipboardCopy t ∉ (cancel cancelledSample).2) ∧
    (∀ w t, Action.pasteToWindow w t ∉ (cancel cancelledSample).2) ∧
    ((cancel cancelledSample).1.cancelled = true) ∧
    (finish (cancel cancelledSample).1 ['h', 'i']).2 = [] :=
  cancellation_wins cancelledSample ['h', 'i'] rfl

/-- C3: the error terminal path skips device restoration. With a Bluetooth
card on profile `a2dp-sink`, an mSBC HFP profile available, and no input
device found, `worker_init` disables the autoswitch agent and switches the
card to HFP, then ends the session through `show_error` — whose whole
effect is the label text and the delayed quit — so the original profile is
never restored, the autoswitch agent is never re-enabled, and the
autoswitch-disabled flag is still set at exit. -/
theorem error_path_skips_bt_restore :
    (worker_init ⟨some "bluez_card.x", some "a2dp-sink", some "XM5",
        some "headset-head-unit-msbc", false, true, true⟩ (initState none)).2 =
      [Action.setAutoswitch false,
       Action.setCardProfile "bluez_card.x" "headset-head-unit-msbc",
       Action.sleepHalfSecond,
       Action.setLabel "No input devices found. Is a microphone connected?",
       Action.scheduleQuitAfterError] ∧
    Action.setCardProfile "bluez_card.x" "a2dp-sink" ∉
      (worker_init ⟨some "bluez_card.x", some "a2dp-sink", some "XM5",
        some "headset-head-unit-msbc", false, true, true⟩ (initState none)).2 ∧
    Action.setAutoswitch true ∉
      (worker_init ⟨some "bluez_card.x", some "a2dp-sink", some "XM5",
        some "headset-head-unit-msbc", false, true, true⟩ (initState none)).2 ∧
    (worker_init ⟨some "bluez_card.x", some "a2dp-sink", some "XM5",
        some "headset-head-unit-msbc", false, true, true⟩
        (initState none)).1.wpAutoswitchDisabled = true ∧
    (show_error (initState none) "x").2 =
      [Action.setLabel "x", Action.scheduleQuitAfterError] := by
  refine ⟨by decide, by decide, by decide, by decide, rfl⟩

/-- C7, counterexample: daemon socket absent, working microphone, no
Bluetooth card. The client does report "Daemon not running" and never
reaches the recording state, but the trace shows the audio stream was
already started before the failed connection attempt, refuting "exits
without starting audio capture". -/
theorem daemon_absent_capture_already_started :
    (worker_init ⟨none, none, none, none, true, true, false⟩ (initState none)).2 =
      [Action.streamStart, Action.setLabel "Daemon not running",
       Action.scheduleQuitAfterError] ∧
    Action.startRecording ∉
      (worker_init ⟨none, none, none, none, true, true, false⟩ (initState none)).2 := by
  refine ⟨by decide, by decide⟩

lemma bt_negotiate_actions (env : Env) (s : SessionState) :
    ∀ a ∈ (bt_negotiate env s).2,
      a = Action.setAutoswitch false ∨
      (∃ c p, a = Action.setCardProfile c p) ∨ a = Action.sleepHalfSecond := by
  intro a ha
  unfold bt_negotiate at ha
  rcases hc : env.btCard with _ | card <;> simp only [hc] at ha
  · exact absurd ha (List.not_mem_nil a)
  · rcases hh : env.hfpProfile with _ | hfp <;> simp only [hh] at ha
    · exact absurd ha (List.not_mem_nil a)
    · rcases ho : env.btActiveProfile with _ | orig <;> simp only [ho] at ha
      · exact Or.inl (List.mem_singleton.mp ha)
      · by_cases hne : hfp ≠ orig
        · rw [if_pos hne] at ha
          rcases List.mem_cons.mp ha with rfl | h3
          · exact Or.inl rfl
          · rcases List.mem_cons.mp h3 with rfl | h4
            · exact Or.inr (Or.inl ⟨card, hfp, rfl⟩)
            · exact Or.inr (Or.inr (List.mem_singleton.mp h4))
        · rw [if_neg hne] at ha
          exact Or.inl (List.mem_singleton.mp ha)

/-- C7 (amended): if the daemon socket is absent when the client reaches
the connection step, the client reports "Daemon not running" and exits
without connecting, without starting the reader, without entering the
recording state and without streaming any audio — though audio capture has
already been started just before the connection attempt. -/
theorem daemon_absent_aborts (env : Env) (s0 : SessionState)
    (hdev : env.deviceFound = true) (hstream : env.streamOpens = true)
    (hsock : env.socketExists = false) :
    Action.setLabel "Daemon not running" ∈ (worker_init env s0).2 ∧
    Action.scheduleQuitAfterError ∈ (worker_init env s0).2 ∧
    Action.startRecording ∉ (worker_init env s0).2 ∧
    Action.readerThreadStart ∉ (worker_init env s0).2 ∧
    Action.writerLoop ∉ (worker_init env s0).2 ∧
    Action.sockConnect ∉ (worker_init env s0).2 ∧
    Action.streamStart ∈ (worker_init env s0).2 := by
  have htrace : (worker_init env s0).2 =
      (bt_negotiate env s0).2 ++ [Action.streamStart] ++
        [Action.setLabel "Daemon not running", Action.scheduleQuitAfterError] := by
    unfold worker_init
    rw [hdev, hstream, hsock]
    simp [show_error]
  rw [htrace]
  have hnot : ∀ a : Action,
      (∀ b, a ≠ Action.setAutoswitch b) →
      (∀ c p, a ≠ Action.setCardProfile c p) →
      a ≠ Action.sleepHalfSecond → a ≠ Action.streamStart →
      a ≠ Action.setLabel "Daemon not running" →
      a ≠ Action.scheduleQuitAfterError →
      a ∉ (bt_negotiate env s0).2 ++ [Action.streamStart] ++
        [Action.setLabel "Daemon not running", Action.scheduleQuitAfterError] := by
    intro a hsw hcp hsl hss hlb hsq hmem
    rcases List.mem_append.mp hmem with h' | h'
    · rcases List.mem_append.mp h' with h'' | h''
      · rcases bt_negotiate_actions env s0 _ h'' with rfl | ⟨c, p, rfl⟩ | rfl
        · exact hsw false rfl
        · exact hcp c p rfl
        · exact hsl rfl
      · exact hss (List.mem_singleton.mp h'')
    · rcases List.mem_cons.mp h' with h3 | h3
      · exact hlb h3
      · exact hsq (List.mem_singleton.mp h3)
  refine ⟨by simp, by simp, ?_, ?_, ?_, ?_, by simp⟩
  · exact hnot _ (by intro b hx; cases hx) (by intro c p hx; cases hx)
      (by intro hx; cases hx) (by intro hx; cases hx)
      (by intro hx; cases hx) (by intro hx; cases hx)
  · exact hnot _ (by intro b hx; cases hx) (by intro c p hx; cases hx)
      (by intro hx; cases hx) (by intro hx; cases hx)
      (by intro hx; cases hx) (by intro hx; cases hx)
  · exact hnot _ (by intro b hx; cases hx) (by intro c p hx; cases hx)
      (by intro hx; cases hx) (by intro hx; cases hx)
      (by intro hx; cases hx) (by intro hx; cases hx)
  · exact hnot _ (by intro b hx; cases hx) (by intro c p hx; cases hx)
      (by intro hx; cases hx) (by intro hx; cases hx)
      (by intro hx; cases hx) (by intro hx; cases hx)

/-- A concrete environment for `daemon_absent_aborts`: Bluetooth headset
present, device and stream fine, daemon socket absent. -/
def envSocketAbsent : Env :=
  ⟨some "bluez_card.x", some "a2dp-sink", some "XM5",
   some "headset-head-unit-msbc", true, true, false⟩

/-- Witness for `daemon_absent_aborts` at `envSocketAbsent`. -/
theorem daemon_absent_aborts_witness :
    Action.setLabel "Daemon not running" ∈
      (worker_init envSocketAbsent (initState none)).2 ∧
    Action.scheduleQuitAfterError ∈
      (worker_init envSocketAbsent (initState none)).2 ∧
    Action.startRecording ∉ (worker_init envSocketAbsent (initState none)).2 ∧
    Action.readerThreadStart ∉ (worker_init envSocketAbsent (initState none)).2 ∧
    Action.writerLoop ∉ (worker_init envSocketAbsent (initState none)).2 ∧
    Action.sockConnect ∉ (worker_init envSocketAbsent (initState none)).2 ∧
    Action.streamStart ∈ (worker_init envSocketAbsent (initState none)).2 :=
  daemon_absent_aborts envSocketAbsent (initState none) rfl rfl rfl


end Dictation
